import Mathlib

/-!
# Endpoints of time intervals (package `intervals`, `endpoints.go`)

A shallow embedding of the `endpoint` value type and of its relations
`Equal`, `Before` and `After`, followed by the properties of these relations.

The field `Value` has Go's standard-library type `time.Time`.  That type is
embedded with the three fields of its struct, because `endpoint.Equal` compares
`Value` with Go's `==` (field by field) while `endpoint.Before` and
`endpoint.After` call the methods `Time.Before`, `Time.After` and `Time.Equal`
(which compare instants).
-/

namespace Intervals

/-! ## `time.Time` -/

/-- Go's `time.Time` struct: `wall uint64`, `ext int64` and `loc *Location`
(the pointer is its address, `0` for `nil`, which stands for UTC).  The derived
equality is Go's `==` on the struct. -/
structure Time where
  wall : Nat
  ext : Int
  loc : Nat
deriving DecidableEq, Repr

namespace Time

/-- Constant `hasMonotonic = 1 << 63`. -/
def hasMonotonic : Nat := 1 <<< 63

/-- Constant `nsecMask = 1<<30 - 1`. -/
def nsecMask : Nat := (1 <<< 30) - 1

/-- Constant `nsecShift = 30`. -/
def nsecShift : Nat := 30

/-- Constant `wallToInternal`: seconds from January 1 of year 1 to January 1 of 1885. -/
def wallToInternal : Int :=
  (1884 * 365 + 1884 / 4 - 1884 / 100 + 1884 / 400) * 86400

/-- The test `t.wall&hasMonotonic != 0`. -/
def mono (t : Time) : Bool := decide (t.wall &&& hasMonotonic ≠ 0)

/-- Method `nsec`: `int32(t.wall & nsecMask)`. -/
def nsec (t : Time) : Int := ((t.wall &&& nsecMask : Nat) : Int)

/-- Method `sec`: seconds since January 1 of year 1;
`wallToInternal + int64(t.wall<<1>>(nsecShift+1))` with a monotonic reading
(the shifts are those of a `uint64`), `t.ext` without. -/
def sec (t : Time) : Int :=
  if t.mono then
    wallToInternal + ((((t.wall <<< 1) % 2 ^ 64) >>> (nsecShift + 1) : Nat) : Int)
  else t.ext

/-- Method `Time.After`: both monotonic readings when both are present, else the
wall clock. -/
def After (t u : Time) : Bool :=
  if t.mono && u.mono then decide (t.ext > u.ext)
  else
    decide (t.sec > u.sec) || (decide (t.sec = u.sec) && decide (t.nsec > u.nsec))

/-- Method `Time.Before`, with the comparisons of `Time.After` turned round. -/
def Before (t u : Time) : Bool :=
  if t.mono && u.mono then decide (t.ext < u.ext)
  else
    decide (t.sec < u.sec) || (decide (t.sec = u.sec) && decide (t.nsec < u.nsec))

/-- Method `Time.Equal`: the same instant, whatever the location. -/
def Equal (t u : Time) : Bool :=
  if t.mono && u.mono then decide (t.ext = u.ext)
  else decide (t.sec = u.sec) && decide (t.nsec = u.nsec)

/-- The zero value `time.Time{}`. -/
def zero : Time := ⟨0, 0, 0⟩

/-- A wall-clock time (no monotonic reading) in the location at address `l`:
`s` seconds after January 1 of year 1, and `n` nanoseconds. -/
def ofWall (s : Int) (n : Nat) (l : Nat) : Time := ⟨n, s, l⟩

end Time

/-! ## `endpoint` -/

/-- Go type `endpointType`, a `string`. -/
abbrev endpointType := String

def finiteType : endpointType := "finite"

def plusInfiniteType : endpointType := "+inf"

def minusInfiniteType : endpointType := "-inf"

/-- Go struct `endpoint`. -/
structure endpoint where
  Value : Time
  EndpointType : endpointType
  Included : Bool
deriving DecidableEq, Repr

/-- Constructor `newOpenEndpoint`. -/
def newOpenEndpoint (v : Time) : endpoint :=
  { Value := v, EndpointType := finiteType, Included := false }

/-- Constructor `newCloseEndpoint`. -/
def newCloseEndpoint (v : Time) : endpoint :=
  { Value := v, EndpointType := finiteType, Included := true }

/-- Constructor `newMinusInfiniteEndpoint`; `Value` is left at its zero value. -/
def newMinusInfiniteEndpoint : endpoint :=
  { Value := Time.zero, EndpointType := minusInfiniteType, Included := false }

/-- Constructor `newPlusInfiniteEndpoint`; `Value` is left at its zero value. -/
def newPlusInfiniteEndpoint : endpoint :=
  { Value := Time.zero, EndpointType := plusInfiniteType, Included := false }

def minusInfinite : endpoint := newMinusInfiniteEndpoint

def plusInfinite : endpoint := newPlusInfiniteEndpoint

namespace endpoint

/-- Method `IsFinite`. -/
def IsFinite (e : endpoint) : Bool := decide (e.EndpointType = finiteType)

/-- Method `IsOpen`. -/
def IsOpen (e : endpoint) : Bool := !e.Included

/-- Method `IsClosed`. -/
def IsClosed (e : endpoint) : Bool := e.Included

/-- Method `Equal`: `e.Value == e2.Value && e.Included == e2.Included &&
e.EndpointType == e2.EndpointType`. -/
def Equal (e e2 : endpoint) : Bool :=
  decide (e.Value = e2.Value) && decide (e.Included = e2.Included)
    && decide (e.EndpointType = e2.EndpointType)

/-- Method `Before`: the four tests on the kinds, then the three cases on the
`Included` flags. -/
def Before (e e2 : endpoint) : Bool :=
  if e2.EndpointType = minusInfiniteType then false
  else if e.EndpointType = minusInfiniteType then true
  else if e.EndpointType = plusInfiniteType then false
  else if e2.EndpointType = plusInfiniteType then true
  else if e.Included && e2.Included then
    e.Value.Before e2.Value && !(e.Value.Equal e2.Value)
  else if e.Included && !e2.Included then
    e.Value.Before e2.Value || e.Value.Equal e2.Value
  else e.Value.Before e2.Value

/-- Method `After`: the four tests on the kinds, then the three cases on the
`Included` flags. -/
def After (e e2 : endpoint) : Bool :=
  if e2.EndpointType = plusInfiniteType then false
  else if e.EndpointType = plusInfiniteType then true
  else if e2.EndpointType = minusInfiniteType then true
  else if e.EndpointType = minusInfiniteType then false
  else if e.Included && e2.Included then
    e.Value.After e2.Value && !(e.Value.Equal e2.Value)
  else if e.Included && !e2.Included then
    e.Value.After e2.Value || e.Value.Equal e2.Value
  else e.Value.After e2.Value

end endpoint

/-- An endpoint returned by one of the four constructors. -/
def Constructed (e : endpoint) : Prop :=
  (∃ t, e = newOpenEndpoint t) ∨ (∃ t, e = newCloseEndpoint t)
    ∨ e = newMinusInfiniteEndpoint ∨ e = newPlusInfiniteEndpoint

/-- The test times `2022-11-02T01:00:00Z` and `2022-11-02T01:02:03Z`. -/
def t1 : Time := Time.ofWall 63802947600 0 0

def t2 : Time := Time.ofWall 63802947723 0 0

/-- The instant of `t2` in a location other than UTC. -/
def t2zone : Time := Time.ofWall 63802947723 0 1

/-- The rule table of `before` in the words of the specification: false when
`b` is minus-infinity; otherwise true when `a` is minus-infinity; otherwise
false when `a` is plus-infinity; otherwise true when `b` is plus-infinity;
otherwise true iff `a.Value` is strictly earlier than `b.Value`, or both are the
same instant with `a` closed and `b` open. -/
def beforeRule (a b : endpoint) : Bool :=
  if b.EndpointType = minusInfiniteType then false
  else if a.EndpointType = minusInfiniteType then true
  else if a.EndpointType = plusInfiniteType then false
  else if b.EndpointType = plusInfiniteType then true
  else a.Value.Before b.Value
    || (a.Value.Equal b.Value && a.Included && !b.Included)

/-- The derived definition of `after` that the specification mentions:
`!before(a, b) && !equal(a, b)`. -/
def afterDerived (a b : endpoint) : Bool := !a.Before b && !a.Equal b

/-- Exactly one of three truth values is `true`. -/
def exactlyOne (p q r : Bool) : Bool :=
  (p && !q && !r) || (!p && q && !r) || (!p && !q && r)

/-- Neither minus-infinity nor plus-infinity: the endpoints that `Before` and
`After` compare by `Value` and `Included`. -/
def Bounded (e : endpoint) : Prop :=
  e.EndpointType ≠ minusInfiniteType ∧ e.EndpointType ≠ plusInfiniteType

/-- A value as `time.Now` builds it: the wall clock at `s` seconds after
January 1 of 1885 and `n` nanoseconds, together with the monotonic clock
reading `m`, in the location at address `l`:
`Time{hasMonotonic | uint64(sec)<<nsecShift | uint64(nsec), mono, Local}`. -/
def Time.ofNow (s n : Nat) (m : Int) (l : Nat) : Time :=
  ⟨Time.hasMonotonic ||| (s <<< Time.nsecShift) ||| n, m, l⟩

/-- A reading of `time.Now` whose wall clock shows `2022-11-02T01:00:00Z` and
whose monotonic clock shows two seconds. -/
def nowWallEarly : Time := Time.ofNow 4349638800 0 2000000000 1

/-- A reading of `time.Now` whose wall clock shows `2022-11-02T01:05:00Z` and
whose monotonic clock shows one second: it was taken before `nowWallEarly`, and
the wall clock was set back in between. -/
def nowWallLate : Time := Time.ofNow 4349639100 0 1000000000 1

/-- Method `String`: `"-inf"`, `"+inf"`, or `e.Value.Format(time.RFC3339)`.  The
standard-library rendering `Time.Format(time.RFC3339)` is the parameter
`format`. -/
def endpoint.String (format : Time → String) (e : endpoint) : String :=
  if e.EndpointType = minusInfiniteType then "-inf"
  else if e.EndpointType = plusInfiniteType then "+inf"
  else format e.Value

/-- A rendering function to instantiate `format` with: the seconds and the
nanoseconds of the wall clock, in decimal. -/
def formatSecNsec (t : Time) : String :=
  toString t.sec ++ "." ++ toString t.nsec

/-- The wall-clock branch of `Time.Before`: the comparison made unless both
values carry a monotonic reading. -/
def Time.wallBefore (t u : Time) : Bool :=
  decide (t.sec < u.sec) || (decide (t.sec = u.sec) && decide (t.nsec < u.nsec))

/-- The wall-clock branch of `Time.Equal`. -/
def Time.wallEqual (t u : Time) : Bool :=
  decide (t.sec = u.sec) && decide (t.nsec = u.nsec)

/-- Whether `Time.Before` and `Time.Equal` order the two values as their wall
clocks do.  Two values that do not both carry a monotonic reading always are;
two readings of the monotonic clock are when no step of the wall clock lies
between them. -/
def Time.byWall (t u : Time) : Bool :=
  (t.Before u == t.wallBefore u) && (t.Equal u == t.wallEqual u)

/-- Method `stripMono`, which `Time.UTC`, `Time.In` and `Time.Round(0)` apply:
`if t.wall&hasMonotonic != 0 { t.ext = t.sec(); t.wall &= nsecMask }`. -/
def Time.stripMono (t : Time) : Time :=
  if t.mono then ⟨t.wall &&& Time.nsecMask, t.sec, t.loc⟩ else t

/-! ## Lemmas on `time.Time` -/

theorem Time.order_cases (t u : Time) :
    (t.Before u = true ∧ t.After u = false ∧ t.Equal u = false) ∨
    (t.Before u = false ∧ t.After u = true ∧ t.Equal u = false) ∨
    (t.Before u = false ∧ t.After u = false ∧ t.Equal u = true) := by
  unfold Time.Before Time.After Time.Equal
  split
  · rcases lt_trichotomy t.ext u.ext with h | h | h
    · left; simp [h, h.le, h.ne]
    · right; right; simp [h]
    · right; left; simp [h, h.le, h.ne']
  · rcases lt_trichotomy t.sec u.sec with h | h | h
    · left; simp [h, h.le, h.ne]
    · rcases lt_trichotomy t.nsec u.nsec with k | k | k
      · left; simp [h, k, k.le, k.ne]
      · right; right; simp [h, k]
      · right; left; simp [h, k, k.le, k.ne']
    · right; left; simp [h, h.le, h.ne']

theorem Time.After_swap (t u : Time) : u.After t = t.Before u := by
  unfold Time.Before Time.After
  rw [Bool.and_comm u.mono t.mono]
  split
  · rfl
  · simp only [gt_iff_lt, eq_comm]

theorem Time.Equal_swap (t u : Time) : u.Equal t = t.Equal u := by
  unfold Time.Equal
  rw [Bool.and_comm u.mono t.mono]
  split <;> simp only [eq_comm]

theorem Time.Equal_self (t : Time) : t.Equal t = true := by
  unfold Time.Equal
  split <;> simp

theorem Time.Before_self (t : Time) : t.Before t = false := by
  rcases Time.order_cases t t with h | h | h
  · have := Time.Equal_self t; simp_all
  · have := Time.Equal_self t; simp_all
  · exact h.1

theorem Time.After_self (t : Time) : t.After t = false := by
  rw [Time.After_swap]; exact Time.Before_self t

theorem Time.ne_of_Equal_false {t u : Time} (h : t.Equal u = false) : t ≠ u := by
  rintro rfl
  rw [Time.Equal_self] at h
  exact Bool.noConfusion h

theorem Time.byWall_of_not_both {t u : Time} (h : (t.mono && u.mono) = false) :
    t.byWall u = true := by
  unfold Time.byWall Time.Before Time.Equal Time.wallBefore Time.wallEqual
  simp [h]

theorem Time.trans_of_mono {t u v : Time} (ht : t.mono = true)
    (hu : u.mono = true) (hv : v.mono = true) :
    (t.Before u = true → u.Before v = true → t.Before v = true)
      ∧ (t.Before u = true → u.Equal v = true → t.Before v = true)
      ∧ (t.Equal u = true → u.Before v = true → t.Before v = true) := by
  unfold Time.Before Time.Equal
  simp only [ht, hu, hv, Bool.and_self, if_true, decide_eq_true_eq]
  refine ⟨?_, ?_, ?_⟩ <;> intro h1 h2 <;> omega

theorem Time.trans_of_byWall {t u v : Time} (h1 : t.byWall u = true)
    (h2 : u.byWall v = true) (h3 : t.byWall v = true) :
    (t.Before u = true → u.Before v = true → t.Before v = true)
      ∧ (t.Before u = true → u.Equal v = true → t.Before v = true)
      ∧ (t.Equal u = true → u.Before v = true → t.Before v = true) := by
  unfold Time.byWall at h1 h2 h3
  simp only [Bool.and_eq_true, beq_iff_eq] at h1 h2 h3
  rw [h1.1, h1.2, h2.1, h2.2, h3.1]
  unfold Time.wallBefore Time.wallEqual
  simp only [Bool.or_eq_true, Bool.and_eq_true, decide_eq_true_eq]
  refine ⟨?_, ?_, ?_⟩ <;> intro k1 k2 <;> omega

theorem Time.order_trans {t u v : Time}
    (h : (t.mono = true ∧ u.mono = true ∧ v.mono = true)
      ∨ ((t.mono && u.mono) = false ∧ (u.mono && v.mono) = false
          ∧ (t.mono && v.mono) = false)
      ∨ (t.byWall u = true ∧ u.byWall v = true ∧ t.byWall v = true)) :
    (t.Before u = true → u.Before v = true → t.Before v = true)
      ∧ (t.Before u = true → u.Equal v = true → t.Before v = true)
      ∧ (t.Equal u = true → u.Before v = true → t.Before v = true) := by
  rcases h with ⟨ht, hu, hv⟩ | ⟨h1, h2, h3⟩ | ⟨h1, h2, h3⟩
  · exact Time.trans_of_mono ht hu hv
  · exact Time.trans_of_byWall (Time.byWall_of_not_both h1)
      (Time.byWall_of_not_both h2) (Time.byWall_of_not_both h3)
  · exact Time.trans_of_byWall h1 h2 h3

theorem Time.stripMono_mono (t : Time) : t.stripMono.mono = false := by
  unfold Time.stripMono
  split
  · have h0 : Time.nsecMask &&& Time.hasMonotonic = 0 := by decide
    simp [Time.mono, Nat.land_assoc, h0]
  · rename_i h
    simpa using h

theorem Time.stripMono_sec (t : Time) : t.stripMono.sec = t.sec := by
  have hm := Time.stripMono_mono t
  cases h : t.mono
  · simp [Time.stripMono, h]
  · rw [Time.sec, hm]
    simp [Time.stripMono, h]

theorem Time.stripMono_nsec (t : Time) : t.stripMono.nsec = t.nsec := by
  cases h : t.mono
  · simp [Time.stripMono, h]
  · simp [Time.stripMono, h, Time.nsec, Nat.land_assoc]

theorem Time.Before_stripMono (t u : Time) :
    t.Before u.stripMono = t.wallBefore u := by
  unfold Time.Before Time.wallBefore
  simp [Time.stripMono_mono, Time.stripMono_sec, Time.stripMono_nsec]

theorem Time.Equal_stripMono (t u : Time) :
    t.Equal u.stripMono = t.wallEqual u := by
  unfold Time.Equal Time.wallEqual
  simp [Time.stripMono_mono, Time.stripMono_sec, Time.stripMono_nsec]

theorem Time.wallEqual_self (t : Time) : t.wallEqual t = true := by
  simp [Time.wallEqual]

theorem Time.not_byWall_cases {x y : Time} (hx : x.mono = true)
    (hy : y.mono = true) (h : x.byWall y = false) :
    (x.Before y = true ∧ x.wallBefore y = false)
      ∨ (x.Before y = false ∧ x.wallBefore y = true)
      ∨ (y.Before x = true ∧ y.wallBefore x = false)
      ∨ (y.Before x = false ∧ y.wallBefore x = true) := by
  unfold Time.byWall Time.Before Time.Equal Time.wallBefore Time.wallEqual at h
  unfold Time.Before Time.wallBefore
  simp only [hx, hy, Bool.and_self, if_true] at h ⊢
  by_cases e1 : x.ext < y.ext <;> by_cases e2 : y.ext < x.ext <;>
    by_cases s1 : x.sec < y.sec <;> by_cases s2 : y.sec < x.sec <;>
    by_cases n1 : x.nsec < y.nsec <;> by_cases n2 : y.nsec < x.nsec <;>
    by_cases e3 : x.ext = y.ext <;> by_cases s3 : x.sec = y.sec <;>
    by_cases n3 : x.nsec = y.nsec <;>
    simp [e1, e2, s1, s2, n1, n2, e3, s3, n3, eq_comm] at h ⊢ <;> omega

/-! ## Lemmas on the endpoint kinds -/

theorem finiteType_ne_minus : finiteType ≠ minusInfiniteType := by decide

theorem finiteType_ne_plus : finiteType ≠ plusInfiniteType := by decide

theorem minus_ne_plus : minusInfiniteType ≠ plusInfiniteType := by decide

/-! ## `Before` away from the infinities -/

theorem Before_of_Bounded (a b : endpoint) (ha : Bounded a) (hb : Bounded b) :
    a.Before b = (a.Value.Before b.Value
      || (a.Value.Equal b.Value && a.Included && !b.Included)) := by
  obtain ⟨ha1, ha2⟩ := ha
  obtain ⟨hb1, hb2⟩ := hb
  unfold endpoint.Before
  rcases Time.order_cases a.Value b.Value with h | h | h <;>
    obtain ⟨hB, -, hE⟩ := h <;>
    rw [hB, hE] <;>
    cases a.Included <;> cases b.Included <;> simp [ha1, ha2, hb1, hb2]

theorem Bounded_of_IsFinite {e : endpoint} (h : e.IsFinite = true) : Bounded e := by
  simp only [endpoint.IsFinite, decide_eq_true_eq] at h
  unfold Bounded
  rw [h]
  exact ⟨finiteType_ne_minus, finiteType_ne_plus⟩

/-! ## `Before` against the rule table -/

/-- C1: for all endpoints `a` and `b`, `Before(a, b)` equals the rule table of
the specification: false when `b` is minus-infinity; otherwise true when `a` is
minus-infinity; otherwise false when `a` is plus-infinity; otherwise true when
`b` is plus-infinity; otherwise true iff `a.Value` is strictly earlier than
`b.Value`, or both are the same instant with `a` closed and `b` open. -/
theorem Before_eq_beforeRule (a b : endpoint) : a.Before b = beforeRule a b := by
  unfold endpoint.Before beforeRule
  rcases Time.order_cases a.Value b.Value with h | h | h <;>
    obtain ⟨hB, -, hE⟩ := h <;>
    rw [hB, hE] <;>
    cases a.Included <;> cases b.Included <;> simp

/-! ## `After` as the mirror of `Before` -/

/-- C2, counterexample: at the same instant a closed endpoint is before the
open one, yet the open one is not after the closed one. -/
theorem Before_ne_After_swap_closed_open :
    (newCloseEndpoint t2).Before (newOpenEndpoint t2)
      ≠ (newOpenEndpoint t2).After (newCloseEndpoint t2) := by
  decide

/-- C2, amended: for every pair of endpoints that are not both minus-infinity,
`Before(a, b) == After(b, a)` holds iff it is not the case that neither endpoint
is infinite, their values are the same instant and their `Included` flags
differ. -/
theorem Before_eq_After_swap_iff (a b : endpoint)
    (h : ¬ (a.EndpointType = minusInfiniteType ∧ b.EndpointType = minusInfiniteType)) :
    a.Before b = b.After a ↔
      ¬ (Bounded a ∧ Bounded b ∧ a.Value.Equal b.Value = true
          ∧ a.Included ≠ b.Included) := by
  unfold endpoint.Before endpoint.After Bounded
  rw [Time.After_swap a.Value b.Value, Time.Equal_swap a.Value b.Value]
  by_cases ham : a.EndpointType = minusInfiniteType
  · have hbm : ¬ b.EndpointType = minusInfiniteType := fun hb => h ⟨ham, hb⟩
    have hap : ¬ a.EndpointType = plusInfiniteType := by
      rw [ham]; exact minus_ne_plus
    simp [ham, hbm, hap, minus_ne_plus]
  · by_cases hbm : b.EndpointType = minusInfiniteType
    · have hbp : ¬ b.EndpointType = plusInfiniteType := by
        rw [hbm]; exact minus_ne_plus
      simp [ham, hbm, hbp, minus_ne_plus]
    · by_cases hap : a.EndpointType = plusInfiniteType
      · simp [ham, hbm, hap, minus_ne_plus.symm]
      · by_cases hbp : b.EndpointType = plusInfiniteType
        · simp [ham, hbm, hap, hbp, minus_ne_plus.symm]
        · rcases Time.order_cases a.Value b.Value with k | k | k <;>
            obtain ⟨hB, -, hE⟩ := k <;>
            rw [hB, hE] <;>
            cases a.Included <;> cases b.Included <;>
            simp [ham, hbm, hap, hbp]

/-- C2, witness: minus-infinity against the closed endpoint at `t2`. -/
theorem Before_eq_After_swap_iff_witness :
    minusInfinite.Before (newCloseEndpoint t2)
        = (newCloseEndpoint t2).After minusInfinite ↔
      ¬ (Bounded minusInfinite ∧ Bounded (newCloseEndpoint t2)
          ∧ minusInfinite.Value.Equal (newCloseEndpoint t2).Value = true
          ∧ minusInfinite.Included ≠ (newCloseEndpoint t2).Included) :=
  Before_eq_After_swap_iff minusInfinite (newCloseEndpoint t2) (by decide)

/-! ## Trichotomy -/

/-- C3, counterexample: the closed and the open endpoint at `t2`, both built by
the constructors, are at once before and after one another, so two of the three
relations hold. -/
theorem trichotomy_fails_closed_open :
    Constructed (newCloseEndpoint t2) ∧ Constructed (newOpenEndpoint t2)
      ∧ (newCloseEndpoint t2).Before (newOpenEndpoint t2) = true
      ∧ (newCloseEndpoint t2).After (newOpenEndpoint t2) = true
      ∧ exactlyOne ((newCloseEndpoint t2).Before (newOpenEndpoint t2))
          ((newCloseEndpoint t2).After (newOpenEndpoint t2))
          ((newCloseEndpoint t2).Equal (newOpenEndpoint t2)) = false :=
  ⟨Or.inr (Or.inl ⟨t2, rfl⟩), Or.inl ⟨t2, rfl⟩, by decide, by decide, by decide⟩

/-- C3, amended: for endpoints `a` and `b` built by the four constructors and
not both minus-infinity, exactly one of `Before(a, b)`, `After(a, b)`,
`Equal(a, b)` is true iff `a` or `b` is infinite, or their values are different
instants, or `Equal(a, b)` is true. -/
theorem trichotomy_iff (a b : endpoint) (ha : Constructed a) (hb : Constructed b)
    (h : ¬ (a = newMinusInfiniteEndpoint ∧ b = newMinusInfiniteEndpoint)) :
    exactlyOne (a.Before b) (a.After b) (a.Equal b) = true ↔
      (a.IsFinite = false ∨ b.IsFinite = false
        ∨ a.Value.Equal b.Value = false ∨ a.Equal b = true) := by
  rcases ha with ⟨t, rfl⟩ | ⟨t, rfl⟩ | rfl | rfl <;>
    rcases hb with ⟨u, rfl⟩ | ⟨u, rfl⟩ | rfl | rfl
  case inr.inr.inl.inr.inr.inl => exact absurd ⟨rfl, rfl⟩ h
  all_goals first
    | (simp [endpoint.Before, endpoint.After, endpoint.Equal, exactlyOne,
        endpoint.IsFinite, newOpenEndpoint, newCloseEndpoint,
        newMinusInfiniteEndpoint, newPlusInfiniteEndpoint, finiteType_ne_minus,
        finiteType_ne_plus, finiteType_ne_minus.symm, finiteType_ne_plus.symm,
        minus_ne_plus, minus_ne_plus.symm]; done)
    | (rcases Time.order_cases t u with k | k | k <;>
        obtain ⟨hB, hA, hE⟩ := k <;>
        simp [endpoint.Before, endpoint.After, endpoint.Equal, exactlyOne,
          endpoint.IsFinite, newOpenEndpoint, newCloseEndpoint,
          finiteType_ne_minus, finiteType_ne_plus, hB, hA, hE] <;>
        exact Time.ne_of_Equal_false hE)

/-- C3, witness: the closed endpoints at `t1` and at `t2`. -/
theorem trichotomy_iff_witness :
    exactlyOne ((newCloseEndpoint t1).Before (newCloseEndpoint t2))
        ((newCloseEndpoint t1).After (newCloseEndpoint t2))
        ((newCloseEndpoint t1).Equal (newCloseEndpoint t2)) = true ↔
      ((newCloseEndpoint t1).IsFinite = false ∨ (newCloseEndpoint t2).IsFinite = false
        ∨ (newCloseEndpoint t1).Value.Equal (newCloseEndpoint t2).Value = false
        ∨ (newCloseEndpoint t1).Equal (newCloseEndpoint t2) = true) :=
  trichotomy_iff (newCloseEndpoint t1) (newCloseEndpoint t2)
    (Or.inr (Or.inl ⟨t1, rfl⟩)) (Or.inr (Or.inl ⟨t2, rfl⟩)) (by decide)

/-! ## The tie-break at equal values -/

/-- C4, counterexample: at `t2` the open endpoint is not after the closed one,
and the closed endpoint is after the open one. -/
theorem After_tie_break_at_t2 :
    (newOpenEndpoint t2).After (newCloseEndpoint t2) = false
      ∧ (newCloseEndpoint t2).After (newOpenEndpoint t2) = true := by
  decide

/-- C4, amended: for every time value `t`, `Before(newCloseEndpoint(t),
newOpenEndpoint(t))` is true, `Before(newOpenEndpoint(t), newCloseEndpoint(t))`
is false, `After(newCloseEndpoint(t), newOpenEndpoint(t))` is true and
`After(newOpenEndpoint(t), newCloseEndpoint(t))` is false. -/
theorem tie_break (t : Time) :
    (newCloseEndpoint t).Before (newOpenEndpoint t) = true
      ∧ (newOpenEndpoint t).Before (newCloseEndpoint t) = false
      ∧ (newCloseEndpoint t).After (newOpenEndpoint t) = true
      ∧ (newOpenEndpoint t).After (newCloseEndpoint t) = false := by
  simp [endpoint.Before, endpoint.After, newOpenEndpoint, newCloseEndpoint,
    finiteType_ne_minus, finiteType_ne_plus, Time.Equal_self, Time.Before_self,
    Time.After_self]

/-! ## `After` against its derived definition -/

/-- C5, counterexample: the open endpoint at `t2` is neither before nor equal to
the closed one, and it is not after it either. -/
theorem After_ne_afterDerived_open_closed :
    Constructed (newOpenEndpoint t2) ∧ Constructed (newCloseEndpoint t2)
      ∧ (newOpenEndpoint t2).After (newCloseEndpoint t2) = false
      ∧ (!(newOpenEndpoint t2).Before (newCloseEndpoint t2)
          && !(newOpenEndpoint t2).Equal (newCloseEndpoint t2)) = true :=
  ⟨Or.inl ⟨t2, rfl⟩, Or.inr (Or.inl ⟨t2, rfl⟩), by decide, by decide⟩

/-- C5, amended: for endpoints `a` and `b` built by the four constructors and
not both minus-infinity, `After(a, b) == (!Before(a, b) && !Equal(a, b))` holds
iff `a` or `b` is infinite, or their values are different instants, or
`Equal(a, b)` is true. -/
theorem After_eq_afterDerived_iff (a b : endpoint) (ha : Constructed a)
    (hb : Constructed b)
    (h : ¬ (a = newMinusInfiniteEndpoint ∧ b = newMinusInfiniteEndpoint)) :
    a.After b = afterDerived a b ↔
      (a.IsFinite = false ∨ b.IsFinite = false
        ∨ a.Value.Equal b.Value = false ∨ a.Equal b = true) := by
  rcases ha with ⟨t, rfl⟩ | ⟨t, rfl⟩ | rfl | rfl <;>
    rcases hb with ⟨u, rfl⟩ | ⟨u, rfl⟩ | rfl | rfl
  case inr.inr.inl.inr.inr.inl => exact absurd ⟨rfl, rfl⟩ h
  all_goals first
    | (simp [endpoint.Before, endpoint.After, endpoint.Equal, afterDerived,
        endpoint.IsFinite, newOpenEndpoint, newCloseEndpoint,
        newMinusInfiniteEndpoint, newPlusInfiniteEndpoint, finiteType_ne_minus,
        finiteType_ne_plus, finiteType_ne_minus.symm, finiteType_ne_plus.symm,
        minus_ne_plus, minus_ne_plus.symm]; done)
    | (rcases Time.order_cases t u with k | k | k <;>
        obtain ⟨hB, hA, hE⟩ := k <;>
        simp [endpoint.Before, endpoint.After, endpoint.Equal, afterDerived,
          endpoint.IsFinite, newOpenEndpoint, newCloseEndpoint,
          finiteType_ne_minus, finiteType_ne_plus, hB, hA, hE] <;>
        exact Time.ne_of_Equal_false hE)

/-- C5, witness: plus-infinity against the open endpoint at `t1`. -/
theorem After_eq_afterDerived_iff_witness :
    plusInfinite.After (newOpenEndpoint t1)
        = afterDerived plusInfinite (newOpenEndpoint t1) ↔
      (plusInfinite.IsFinite = false ∨ (newOpenEndpoint t1).IsFinite = false
        ∨ plusInfinite.Value.Equal (newOpenEndpoint t1).Value = false
        ∨ plusInfinite.Equal (newOpenEndpoint t1) = true) :=
  After_eq_afterDerived_iff plusInfinite (newOpenEndpoint t1)
    (Or.inr (Or.inr (Or.inr rfl))) (Or.inl ⟨t1, rfl⟩) (by decide)

/-! ## `Equal` -/

/-- C6, counterexample: two endpoints of kind minus-infinity whose `Included`
fields differ are not `Equal`. -/
theorem Equal_minus_infinite_fields :
    (endpoint.mk Time.zero minusInfiniteType true).EndpointType = minusInfiniteType
      ∧ newMinusInfiniteEndpoint.EndpointType = minusInfiniteType
      ∧ (endpoint.mk Time.zero minusInfiniteType true).Equal
          newMinusInfiniteEndpoint = false := by
  decide

/-- C6, amended: for every pair of endpoint values `a` and `b` (any field
contents), `Equal(a, b)` is true iff `a` and `b` have the same kind, the same
`Value` (Go's `==`) and the same `Included` flag, whatever the kind; the
minus-infinity endpoints of the constructor are `Equal`, and so are the
plus-infinity ones. -/
theorem Equal_iff (a b : endpoint) :
    (a.Equal b = true ↔
      a.EndpointType = b.EndpointType ∧ a.Value = b.Value
        ∧ a.Included = b.Included)
      ∧ newMinusInfiniteEndpoint.Equal newMinusInfiniteEndpoint = true
      ∧ newPlusInfiniteEndpoint.Equal newPlusInfiniteEndpoint = true := by
  refine ⟨?_, by decide, by decide⟩
  unfold endpoint.Equal
  simp only [Bool.and_eq_true, decide_eq_true_eq]
  tauto

/-- C7: for two endpoints each produced by one of the four constructors,
`Equal` is true iff both are minus-infinity, or both are plus-infinity, or both
are finite with the same time value and the same openness. -/
theorem Equal_constructed_iff (a b : endpoint) (ha : Constructed a)
    (hb : Constructed b) :
    a.Equal b = true ↔
      (a.EndpointType = minusInfiniteType ∧ b.EndpointType = minusInfiniteType)
        ∨ (a.EndpointType = plusInfiniteType ∧ b.EndpointType = plusInfiniteType)
        ∨ (a.IsFinite = true ∧ b.IsFinite = true ∧ a.Value = b.Value
            ∧ a.IsOpen = b.IsOpen) := by
  rcases ha with ⟨t, rfl⟩ | ⟨t, rfl⟩ | rfl | rfl <;>
    rcases hb with ⟨u, rfl⟩ | ⟨u, rfl⟩ | rfl | rfl <;>
    simp [endpoint.Equal, endpoint.IsFinite, endpoint.IsOpen, newOpenEndpoint,
      newCloseEndpoint, newMinusInfiniteEndpoint, newPlusInfiniteEndpoint,
      finiteType_ne_minus, finiteType_ne_plus, finiteType_ne_minus.symm,
      finiteType_ne_plus.symm, minus_ne_plus, minus_ne_plus.symm]

/-- C7, witness: the closed and the open endpoint at `t2`. -/
theorem Equal_constructed_iff_witness :
    (newCloseEndpoint t2).Equal (newOpenEndpoint t2) = true ↔
      ((newCloseEndpoint t2).EndpointType = minusInfiniteType
          ∧ (newOpenEndpoint t2).EndpointType = minusInfiniteType)
        ∨ ((newCloseEndpoint t2).EndpointType = plusInfiniteType
          ∧ (newOpenEndpoint t2).EndpointType = plusInfiniteType)
        ∨ ((newCloseEndpoint t2).IsFinite = true ∧ (newOpenEndpoint t2).IsFinite = true
            ∧ (newCloseEndpoint t2).Value = (newOpenEndpoint t2).Value
            ∧ (newCloseEndpoint t2).IsOpen = (newOpenEndpoint t2).IsOpen) :=
  Equal_constructed_iff (newCloseEndpoint t2) (newOpenEndpoint t2)
    (Or.inr (Or.inl ⟨t2, rfl⟩)) (Or.inl ⟨t2, rfl⟩)

/-- C8: `Equal` is an equivalence relation on endpoints: `Equal(a, a)` is
true, `Equal(a, b) == Equal(b, a)`, and `Equal(a, b)` together with
`Equal(b, c)` gives `Equal(a, c)`. -/
theorem Equal_equivalence (a b c : endpoint) :
    a.Equal a = true ∧ a.Equal b = b.Equal a
      ∧ (a.Equal b = true → b.Equal c = true → a.Equal c = true) := by
  refine ⟨?_, ?_, ?_⟩
  · simp [endpoint.Equal]
  · unfold endpoint.Equal
    simp only [eq_comm]
  · unfold endpoint.Equal
    simp only [Bool.and_eq_true, decide_eq_true_eq]
    rintro ⟨⟨h1, h2⟩, h3⟩ ⟨⟨k1, k2⟩, k3⟩
    exact ⟨⟨h1.trans k1, h2.trans k2⟩, h3.trans k3⟩

/-- C8, witness: both infinities are `Equal` to themselves, and the chain
through three copies of the open endpoint at `t1`. -/
theorem Equal_equivalence_witness :
    (minusInfinite.Equal minusInfinite = true
        ∧ minusInfinite.Equal plusInfinite = plusInfinite.Equal minusInfinite)
      ∧ plusInfinite.Equal plusInfinite = true
      ∧ (newOpenEndpoint t1).Equal (newOpenEndpoint t1) = true :=
  ⟨⟨(Equal_equivalence minusInfinite plusInfinite plusInfinite).1,
      (Equal_equivalence minusInfinite plusInfinite plusInfinite).2.1⟩,
    (Equal_equivalence plusInfinite plusInfinite plusInfinite).1,
    (Equal_equivalence (newOpenEndpoint t1) (newOpenEndpoint t1)
      (newOpenEndpoint t1)).2.2 (by decide) (by decide)⟩

/-! ## The infinities as extremes -/

/-- C9: for every endpoint `e` built by the constructors, `Before(minusInfinite,
e)` is true iff `e` is not minus-infinity, `Equal(minusInfinite, e)` is true iff
`e` is minus-infinity, `After(plusInfinite, e)` is true iff `e` is not
plus-infinity, and `Equal(plusInfinite, e)` is true iff `e` is plus-infinity. -/
theorem infinities_extreme (e : endpoint) (he : Constructed e) :
    (minusInfinite.Before e = true ↔ e.EndpointType ≠ minusInfiniteType)
      ∧ (minusInfinite.Equal e = true ↔ e.EndpointType = minusInfiniteType)
      ∧ (plusInfinite.After e = true ↔ e.EndpointType ≠ plusInfiniteType)
      ∧ (plusInfinite.Equal e = true ↔ e.EndpointType = plusInfiniteType) := by
  rcases he with ⟨t, rfl⟩ | ⟨t, rfl⟩ | rfl | rfl <;>
    simp [endpoint.Before, endpoint.After, endpoint.Equal, minusInfinite,
      plusInfinite, newOpenEndpoint, newCloseEndpoint, newMinusInfiniteEndpoint,
      newPlusInfiniteEndpoint, finiteType_ne_minus, finiteType_ne_plus,
      finiteType_ne_minus.symm, finiteType_ne_plus.symm, minus_ne_plus,
      minus_ne_plus.symm]

/-- C9, witness: the closed endpoint at `t1`. -/
theorem infinities_extreme_witness :
    (minusInfinite.Before (newCloseEndpoint t1) = true
        ↔ (newCloseEndpoint t1).EndpointType ≠ minusInfiniteType)
      ∧ (minusInfinite.Equal (newCloseEndpoint t1) = true
        ↔ (newCloseEndpoint t1).EndpointType = minusInfiniteType)
      ∧ (plusInfinite.After (newCloseEndpoint t1) = true
        ↔ (newCloseEndpoint t1).EndpointType ≠ plusInfiniteType)
      ∧ (plusInfinite.Equal (newCloseEndpoint t1) = true
        ↔ (newCloseEndpoint t1).EndpointType = plusInfiniteType) :=
  infinities_extreme (newCloseEndpoint t1) (Or.inr (Or.inl ⟨t1, rfl⟩))

/-! ## `After` on finite endpoints -/

/-- C10: for finite endpoints `a` and `b`, whatever their `Included` flags,
`After(a, b)` is true iff `a.Value` is strictly later than `b.Value`, or both
are the same instant with `a` closed and `b` open; in particular, for every
`t`, `After(newCloseEndpoint(t), newOpenEndpoint(t))` is true and
`After(newCloseEndpoint(t), newCloseEndpoint(t))` is false. -/
theorem After_finite_iff (a b : endpoint) (t : Time) (ha : a.IsFinite = true)
    (hb : b.IsFinite = true) :
    (a.After b = true ↔
        a.Value.After b.Value = true
          ∨ (a.Value.Equal b.Value = true ∧ a.Included = true
              ∧ b.Included = false))
      ∧ (newCloseEndpoint t).After (newOpenEndpoint t) = true
      ∧ (newCloseEndpoint t).After (newCloseEndpoint t) = false := by
  refine ⟨?_, ?_, ?_⟩
  · simp only [endpoint.IsFinite, decide_eq_true_eq] at ha hb
    unfold endpoint.After
    rw [ha, hb]
    rcases Time.order_cases a.Value b.Value with k | k | k <;>
      obtain ⟨-, hA, hE⟩ := k <;>
      rw [hA, hE] <;>
      cases a.Included <;> cases b.Included <;>
      simp [finiteType_ne_minus, finiteType_ne_plus]
  · simp [endpoint.After, newOpenEndpoint, newCloseEndpoint, finiteType_ne_minus,
      finiteType_ne_plus, Time.Equal_self, Time.After_self]
  · simp [endpoint.After, newCloseEndpoint, finiteType_ne_minus,
      finiteType_ne_plus, Time.Equal_self, Time.After_self]

/-- C10, witness: the open endpoint at `t2` against the closed one at `t1`. -/
theorem After_finite_iff_witness :
    ((newOpenEndpoint t2).After (newCloseEndpoint t1) = true ↔
        (newOpenEndpoint t2).Value.After (newCloseEndpoint t1).Value = true
          ∨ ((newOpenEndpoint t2).Value.Equal (newCloseEndpoint t1).Value = true
              ∧ (newOpenEndpoint t2).Included = true
              ∧ (newCloseEndpoint t1).Included = false))
      ∧ (newCloseEndpoint t2).After (newOpenEndpoint t2) = true
      ∧ (newCloseEndpoint t2).After (newCloseEndpoint t2) = false :=
  After_finite_iff (newOpenEndpoint t2) (newCloseEndpoint t1) t2 (by decide)
    (by decide)

/-! ## `After` against the infinities -/

/-- C11: `After(e, minusInfinite)` is true for every endpoint `e`, be it
finite, plus-infinity or minus-infinity itself (so `After(minusInfinite,
minusInfinite)` is true), and `After(e, plusInfinite)` is false for every
endpoint `e`, plus-infinity included. -/
theorem After_infinities (e : endpoint) :
    e.After minusInfinite = true
      ∧ minusInfinite.After minusInfinite = true
      ∧ e.After plusInfinite = false
      ∧ plusInfinite.After plusInfinite = false := by
  simp [endpoint.After, minusInfinite, plusInfinite, newMinusInfiniteEndpoint,
    newPlusInfiniteEndpoint, minus_ne_plus]

/-! ## Closed endpoints at one value -/

/-- C12: for every time value `t`, with `a = newCloseEndpoint(t)` and
`b = newCloseEndpoint(t)`, `Before(a, b)` is false, `After(a, b)` is false and
`Equal(a, b)` is true. -/
theorem closed_closed_same (t : Time) :
    (newCloseEndpoint t).Before (newCloseEndpoint t) = false
      ∧ (newCloseEndpoint t).After (newCloseEndpoint t) = false
      ∧ (newCloseEndpoint t).Equal (newCloseEndpoint t) = true := by
  simp [endpoint.Before, endpoint.After, endpoint.Equal, newCloseEndpoint,
    finiteType_ne_minus, finiteType_ne_plus, Time.Equal_self]

/-! ## The queries -/

/-- C13: for every endpoint produced by one of the four constructors, `IsOpen`
is true iff the endpoint is an open finite endpoint or either infinity,
`IsClosed` is true iff it is a closed finite endpoint (so it is false for the
infinities), and `IsOpen(e) == !IsClosed(e)`. -/
theorem IsOpen_IsClosed_constructed (e : endpoint) (he : Constructed e) :
    (e.IsOpen = true ↔
        (∃ t, e = newOpenEndpoint t) ∨ e = newMinusInfiniteEndpoint
          ∨ e = newPlusInfiniteEndpoint)
      ∧ (e.IsClosed = true ↔ ∃ t, e = newCloseEndpoint t)
      ∧ newMinusInfiniteEndpoint.IsClosed = false
      ∧ newPlusInfiniteEndpoint.IsClosed = false
      ∧ e.IsOpen = !e.IsClosed := by
  rcases he with ⟨t, rfl⟩ | ⟨t, rfl⟩ | rfl | rfl <;>
    simp [endpoint.IsOpen, endpoint.IsClosed, newOpenEndpoint, newCloseEndpoint,
      newMinusInfiniteEndpoint, newPlusInfiniteEndpoint, finiteType_ne_minus,
      finiteType_ne_plus, finiteType_ne_minus.symm, finiteType_ne_plus.symm,
      minus_ne_plus, minus_ne_plus.symm]

/-- C13, witness: the closed endpoint at `t2`. -/
theorem IsOpen_IsClosed_constructed_witness :
    ((newCloseEndpoint t2).IsOpen = true ↔
        (∃ t, newCloseEndpoint t2 = newOpenEndpoint t)
          ∨ newCloseEndpoint t2 = newMinusInfiniteEndpoint
          ∨ newCloseEndpoint t2 = newPlusInfiniteEndpoint)
      ∧ ((newCloseEndpoint t2).IsClosed = true ↔
          ∃ t, newCloseEndpoint t2 = newCloseEndpoint t)
      ∧ newMinusInfiniteEndpoint.IsClosed = false
      ∧ newPlusInfiniteEndpoint.IsClosed = false
      ∧ (newCloseEndpoint t2).IsOpen = !(newCloseEndpoint t2).IsClosed :=
  IsOpen_IsClosed_constructed (newCloseEndpoint t2) (Or.inr (Or.inl ⟨t2, rfl⟩))

/-- C15: for every time value `t`, `IsFinite(newOpenEndpoint(t))` and
`IsFinite(newCloseEndpoint(t))` are true, `IsFinite(newMinusInfiniteEndpoint())`
and `IsFinite(newPlusInfiniteEndpoint())` are false, and for every endpoint `e`,
`IsFinite(e)` is true iff the kind of `e` is `finiteType`. -/
theorem IsFinite_iff (t : Time) (e : endpoint) :
    (newOpenEndpoint t).IsFinite = true
      ∧ (newCloseEndpoint t).IsFinite = true
      ∧ newMinusInfiniteEndpoint.IsFinite = false
      ∧ newPlusInfiniteEndpoint.IsFinite = false
      ∧ (e.IsFinite = true ↔ e.EndpointType = finiteType) := by
  simp [endpoint.IsFinite, newOpenEndpoint, newCloseEndpoint,
    newMinusInfiniteEndpoint, newPlusInfiniteEndpoint, finiteType_ne_minus.symm,
    finiteType_ne_plus.symm]

/-! ## `String` -/

/-- C14: `String` returns exactly `"-inf"` for every endpoint whose kind is
minus-infinity and exactly `"+inf"` for every endpoint whose kind is
plus-infinity, whatever its `Value` and `Included` fields contain; for a finite
endpoint the result is the rendering of `Value` alone, so
`newOpenEndpoint(t).String() == newCloseEndpoint(t).String()` for every `t`. -/
theorem String_cases (format : Time → String) (e : endpoint) (t : Time) :
    (e.EndpointType = minusInfiniteType → endpoint.String format e = "-inf")
      ∧ (e.EndpointType = plusInfiniteType → endpoint.String format e = "+inf")
      ∧ (e.IsFinite = true → endpoint.String format e = format e.Value)
      ∧ endpoint.String format (newOpenEndpoint t)
          = endpoint.String format (newCloseEndpoint t) := by
  refine ⟨?_, ?_, ?_, ?_⟩
  · intro h
    simp [endpoint.String, h]
  · intro h
    simp [endpoint.String, h, minus_ne_plus.symm]
  · intro h
    simp only [endpoint.IsFinite, decide_eq_true_eq] at h
    simp [endpoint.String, h, finiteType_ne_minus, finiteType_ne_plus]
  · simp [endpoint.String, newOpenEndpoint, newCloseEndpoint]

/-- C14, witness: infinite kinds with a `Value` and a set `Included` flag, and
the closed endpoint at `t2`. -/
theorem String_cases_witness :
    endpoint.String formatSecNsec (endpoint.mk t2 minusInfiniteType true) = "-inf"
      ∧ endpoint.String formatSecNsec (endpoint.mk t1 plusInfiniteType true) = "+inf"
      ∧ endpoint.String formatSecNsec (newCloseEndpoint t2)
          = formatSecNsec (newCloseEndpoint t2).Value :=
  ⟨(String_cases formatSecNsec (endpoint.mk t2 minusInfiniteType true) t2).1 rfl,
    (String_cases formatSecNsec (endpoint.mk t1 plusInfiniteType true) t2).2.1 rfl,
    (String_cases formatSecNsec (newCloseEndpoint t2) t2).2.2.1 (by decide)⟩

/-! ## `Before` as a strict order -/

/-- C16, counterexample: with two readings of `time.Now` taken around a step
back of the wall clock and the parsed time `t2` between their wall clocks,
`Before` holds from the first endpoint to the second and from the second to the
third, but not from the first to the third. -/
theorem Before_not_transitive :
    (newCloseEndpoint nowWallEarly).Before (newCloseEndpoint t2) = true
      ∧ (newCloseEndpoint t2).Before (newCloseEndpoint nowWallLate) = true
      ∧ (newCloseEndpoint nowWallEarly).Before (newCloseEndpoint nowWallLate)
          = false := by
  decide

/-- C16, amended: for all endpoints `a`, `b`, `c`, `Before(a, a)` is false,
`Before(a, b)` and `Before(b, a)` are never both true, and `Before(a, b)`
together with `Before(b, c)` implies `Before(a, c)` whenever one of the three is
infinite, or their values all carry a monotonic clock reading, or no two of
their values carry one, or every two of their values are ordered by
`Time.Before` and `Time.Equal` as their wall clocks are. -/
theorem Before_strict_order (a b c : endpoint) :
    a.Before a = false
      ∧ (a.Before b = true → b.Before a = false)
      ∧ (¬ Bounded a ∨ ¬ Bounded b ∨ ¬ Bounded c
            ∨ (a.Value.mono = true ∧ b.Value.mono = true ∧ c.Value.mono = true)
            ∨ ((a.Value.mono && b.Value.mono) = false
                ∧ (b.Value.mono && c.Value.mono) = false
                ∧ (a.Value.mono && c.Value.mono) = false)
            ∨ (a.Value.byWall b.Value = true ∧ b.Value.byWall c.Value = true
                ∧ a.Value.byWall c.Value = true) →
          a.Before b = true → b.Before c = true → a.Before c = true) := by
  refine ⟨?_, ?_, ?_⟩
  · by_cases ha : Bounded a
    · rw [Before_of_Bounded a a ha ha, Time.Before_self, Time.Equal_self]
      cases a.Included <;> rfl
    · unfold Bounded at ha
      unfold endpoint.Before
      by_cases h1 : a.EndpointType = minusInfiniteType
      · simp [h1]
      · have h2 : a.EndpointType = plusInfiniteType := by tauto
        simp [h1, h2]
  · intro hab
    by_cases hbm : b.EndpointType = minusInfiniteType
    · simp [endpoint.Before, hbm, minus_ne_plus,
        minus_ne_plus.symm] at hab
    · by_cases ham : a.EndpointType = minusInfiniteType
      · simp [endpoint.Before, ham, minus_ne_plus,
        minus_ne_plus.symm]
      · by_cases hap : a.EndpointType = plusInfiniteType
        · simp [endpoint.Before, hbm, ham, hap, minus_ne_plus,
        minus_ne_plus.symm] at hab
        · by_cases hbp : b.EndpointType = plusInfiniteType
          · simp [endpoint.Before, hbm, ham, hbp, minus_ne_plus,
        minus_ne_plus.symm]
          · rw [Before_of_Bounded a b ⟨ham, hap⟩ ⟨hbm, hbp⟩] at hab
            rw [Before_of_Bounded b a ⟨hbm, hbp⟩ ⟨ham, hap⟩,
              ← Time.After_swap b.Value a.Value, Time.Equal_swap a.Value b.Value]
            rcases Time.order_cases a.Value b.Value with k | k | k <;>
              obtain ⟨hB, hA, hE⟩ := k <;>
              rw [hB, hE] at hab <;>
              rw [hA, hE] <;>
              revert hab <;>
              cases a.Included <;> cases b.Included <;> simp
  · intro hm hab hbc
    by_cases hcm : c.EndpointType = minusInfiniteType
    · simp [endpoint.Before, hcm, minus_ne_plus,
        minus_ne_plus.symm] at hbc
    · by_cases ham : a.EndpointType = minusInfiniteType
      · simp [endpoint.Before, hcm, ham, minus_ne_plus,
        minus_ne_plus.symm]
      · by_cases hbm : b.EndpointType = minusInfiniteType
        · simp [endpoint.Before, hbm, minus_ne_plus,
        minus_ne_plus.symm] at hab
        · by_cases hap : a.EndpointType = plusInfiniteType
          · simp [endpoint.Before, hbm, ham, hap, minus_ne_plus,
        minus_ne_plus.symm] at hab
          · by_cases hcp : c.EndpointType = plusInfiniteType
            · simp [endpoint.Before, hcm, ham, hap, hcp, minus_ne_plus,
        minus_ne_plus.symm]
            · by_cases hbp : b.EndpointType = plusInfiniteType
              · simp [endpoint.Before, hcm, hbm, hbp, minus_ne_plus,
        minus_ne_plus.symm] at hbc
              · have ha : Bounded a := ⟨ham, hap⟩
                have hb : Bounded b := ⟨hbm, hbp⟩
                have hc : Bounded c := ⟨hcm, hcp⟩
                have hv := Time.order_trans
                  (hm.resolve_left (not_not_intro ha) |>.resolve_left
                    (not_not_intro hb) |>.resolve_left (not_not_intro hc))
                obtain ⟨tBB, tBE, tEB⟩ := hv
                rw [Before_of_Bounded a b ha hb] at hab
                rw [Before_of_Bounded b c hb hc] at hbc
                rw [Before_of_Bounded a c ha hc]
                simp only [Bool.or_eq_true, Bool.and_eq_true,
                  Bool.not_eq_true'] at hab hbc ⊢
                rcases hab with hab | ⟨⟨eab, ia⟩, ib⟩
                · rcases hbc with hbc | ⟨⟨ebc, -⟩, -⟩
                  · exact Or.inl (tBB hab hbc)
                  · exact Or.inl (tBE hab ebc)
                · rcases hbc with hbc | ⟨⟨-, ib2⟩, -⟩
                  · exact Or.inl (tEB eab hbc)
                  · rw [ib] at ib2
                    exact Bool.noConfusion ib2

/-- C16, witness: the closed endpoint at a reading of `time.Now`, the closed
endpoint at the parsed time `t2` and the open endpoint at the same instant in
another location; only the first value carries a monotonic reading. -/
theorem Before_strict_order_witness :
    (newCloseEndpoint nowWallEarly).Before (newCloseEndpoint nowWallEarly) = false
      ∧ (newCloseEndpoint t2).Before (newCloseEndpoint nowWallEarly) = false
      ∧ (newCloseEndpoint nowWallEarly).Before (newOpenEndpoint t2zone) = true :=
  ⟨(Before_strict_order (newCloseEndpoint nowWallEarly) (newCloseEndpoint t2)
      (newOpenEndpoint t2zone)).1,
    (Before_strict_order (newCloseEndpoint nowWallEarly) (newCloseEndpoint t2)
      (newOpenEndpoint t2zone)).2.1 (by decide),
    (Before_strict_order (newCloseEndpoint nowWallEarly) (newCloseEndpoint t2)
      (newOpenEndpoint t2zone)).2.2
      (Or.inr (Or.inr (Or.inr (Or.inr (Or.inl (by decide)))))) (by decide)
      (by decide)⟩

theorem IsFinite_open (t : Time) : (newOpenEndpoint t).IsFinite = true := by
  simp [endpoint.IsFinite, newOpenEndpoint]

theorem IsFinite_close (t : Time) : (newCloseEndpoint t).IsFinite = true := by
  simp [endpoint.IsFinite, newCloseEndpoint]

theorem Before_fails_through_stripped (x y : Time) (hB : x.Before y = true)
    (hW : x.wallBefore y = false) :
    (newOpenEndpoint x).Before (newCloseEndpoint y) = true
      ∧ (newCloseEndpoint y).Before (newOpenEndpoint y.stripMono) = true
      ∧ (newOpenEndpoint x).Before (newOpenEndpoint y.stripMono) = false := by
  simp [endpoint.Before, newOpenEndpoint, newCloseEndpoint, finiteType_ne_minus,
    finiteType_ne_plus, hB, hW, Time.Before_stripMono, Time.Equal_stripMono,
    Time.wallEqual_self]

theorem Before_fails_into_stripped (x y : Time) (hB : x.Before y = false)
    (hW : x.wallBefore y = true) :
    (newOpenEndpoint x).Before (newCloseEndpoint y.stripMono) = true
      ∧ (newCloseEndpoint y.stripMono).Before (newOpenEndpoint y) = true
      ∧ (newOpenEndpoint x).Before (newOpenEndpoint y) = false := by
  have hE : y.stripMono.Equal y = true := by
    rw [Time.Equal_swap y y.stripMono, Time.Equal_stripMono, Time.wallEqual_self]
  simp [endpoint.Before, newOpenEndpoint, newCloseEndpoint, finiteType_ne_minus,
    finiteType_ne_plus, hB, hW, hE, Time.Before_stripMono]

/-- The condition on the values cannot be dropped for any pair of them: two
values that both carry a monotonic reading and are not ordered as by their wall
clocks form, with a third value that carries none, the values of three finite
endpoints on which `Before` is not transitive. -/
theorem Before_not_transitive_of_not_byWall (x y : Time) (hx : x.mono = true)
    (hy : y.mono = true) (h : x.byWall y = false) :
    ∃ (z : Time) (a b c : endpoint),
      z.mono = false ∧ [a.Value, b.Value, c.Value].Perm [x, y, z]
        ∧ a.IsFinite = true ∧ b.IsFinite = true ∧ c.IsFinite = true
        ∧ a.Before b = true ∧ b.Before c = true ∧ a.Before c = false := by
  rcases Time.not_byWall_cases hx hy h with ⟨hB, hW⟩ | ⟨hB, hW⟩ | ⟨hB, hW⟩ | ⟨hB, hW⟩
  · obtain ⟨k1, k2, k3⟩ := Before_fails_through_stripped x y hB hW
    exact ⟨y.stripMono, newOpenEndpoint x, newCloseEndpoint y,
      newOpenEndpoint y.stripMono, Time.stripMono_mono y, List.Perm.refl _,
      IsFinite_open _, IsFinite_close _, IsFinite_open _, k1, k2, k3⟩
  · obtain ⟨k1, k2, k3⟩ := Before_fails_into_stripped x y hB hW
    exact ⟨y.stripMono, newOpenEndpoint x, newCloseEndpoint y.stripMono,
      newOpenEndpoint y, Time.stripMono_mono y,
      List.Perm.cons x (List.Perm.swap y y.stripMono []),
      IsFinite_open _, IsFinite_close _, IsFinite_open _, k1, k2, k3⟩
  · obtain ⟨k1, k2, k3⟩ := Before_fails_through_stripped y x hB hW
    exact ⟨x.stripMono, newOpenEndpoint y, newCloseEndpoint x,
      newOpenEndpoint x.stripMono, Time.stripMono_mono x,
      List.Perm.swap x y [x.stripMono],
      IsFinite_open _, IsFinite_close _, IsFinite_open _, k1, k2, k3⟩
  · obtain ⟨k1, k2, k3⟩ := Before_fails_into_stripped y x hB hW
    exact ⟨x.stripMono, newOpenEndpoint y, newCloseEndpoint x.stripMono,
      newOpenEndpoint x, Time.stripMono_mono x,
      (List.Perm.cons y (List.Perm.swap x x.stripMono [])).trans
        (List.Perm.swap x y [x.stripMono]),
      IsFinite_open _, IsFinite_close _, IsFinite_open _, k1, k2, k3⟩

/-! ## The shapes in which trichotomy fails -/

/-- C17, counterexample: the closed endpoints at `t2` and at the same instant in
another location are both finite with the same `Included` flag, and none of
`Before`, `After`, `Equal` holds between them. -/
theorem trichotomy_fails_same_instant :
    Constructed (newCloseEndpoint t2) ∧ Constructed (newCloseEndpoint t2zone)
      ∧ (newCloseEndpoint t2).Included = (newCloseEndpoint t2zone).Included
      ∧ (newCloseEndpoint t2).EndpointType ≠ minusInfiniteType
      ∧ exactlyOne ((newCloseEndpoint t2).Before (newCloseEndpoint t2zone))
          ((newCloseEndpoint t2).After (newCloseEndpoint t2zone))
          ((newCloseEndpoint t2).Equal (newCloseEndpoint t2zone)) = false :=
  ⟨Or.inr (Or.inl ⟨t2, rfl⟩), Or.inr (Or.inl ⟨t2zone, rfl⟩), by decide, by decide,
    by decide⟩

/-- C17, amended: for endpoints `a` and `b` built by the four constructors,
exactly one of `Before(a, b)`, `After(a, b)`, `Equal(a, b)` holds iff it is not
the case that `a` and `b` are both minus-infinity, or that both are finite with
values at the same instant and either different `Included` flags or values that
differ under Go's `==`. -/
theorem trichotomy_shapes (a b : endpoint) (ha : Constructed a)
    (hb : Constructed b) :
    exactlyOne (a.Before b) (a.After b) (a.Equal b) = true ↔
      ¬ ((a.EndpointType = minusInfiniteType ∧ b.EndpointType = minusInfiniteType)
          ∨ (a.IsFinite = true ∧ b.IsFinite = true
              ∧ a.Value.Equal b.Value = true
              ∧ (a.Included ≠ b.Included ∨ a.Value ≠ b.Value))) := by
  rcases ha with ⟨t, rfl⟩ | ⟨t, rfl⟩ | rfl | rfl <;>
    rcases hb with ⟨u, rfl⟩ | ⟨u, rfl⟩ | rfl | rfl
  all_goals first
    | (simp [endpoint.Before, endpoint.After, endpoint.Equal, exactlyOne,
        endpoint.IsFinite, newOpenEndpoint, newCloseEndpoint,
        newMinusInfiniteEndpoint, newPlusInfiniteEndpoint, finiteType_ne_minus,
        finiteType_ne_plus, finiteType_ne_minus.symm, finiteType_ne_plus.symm,
        minus_ne_plus, minus_ne_plus.symm]; done)
    | (rcases Time.order_cases t u with k | k | k <;>
        obtain ⟨hB, hA, hE⟩ := k <;>
        simp [endpoint.Before, endpoint.After, endpoint.Equal, exactlyOne,
          endpoint.IsFinite, newOpenEndpoint, newCloseEndpoint,
          finiteType_ne_minus, finiteType_ne_plus, hB, hA, hE] <;>
        exact Time.ne_of_Equal_false hE)

/-- C17, witness: minus-infinity against itself, where two of the three
relations hold. -/
theorem trichotomy_shapes_witness :
    exactlyOne (minusInfinite.Before minusInfinite)
        (minusInfinite.After minusInfinite)
        (minusInfinite.Equal minusInfinite) = true ↔
      ¬ ((minusInfinite.EndpointType = minusInfiniteType
            ∧ minusInfinite.EndpointType = minusInfiniteType)
          ∨ (minusInfinite.IsFinite = true ∧ minusInfinite.IsFinite = true
              ∧ minusInfinite.Value.Equal minusInfinite.Value = true
              ∧ (minusInfinite.Included ≠ minusInfinite.Included
                  ∨ minusInfinite.Value ≠ minusInfinite.Value))) :=
  trichotomy_shapes minusInfinite minusInfinite (Or.inr (Or.inr (Or.inl rfl)))
    (Or.inr (Or.inr (Or.inl rfl)))

/-! ## Ordering by value -/

/-- C18: for all finite endpoints `a` and `b` with `a.Value` strictly earlier
than `b.Value`, whatever their `Included` flags, `Before(a, b)` and
`After(b, a)` are true and `Before(b, a)` and `After(a, b)` are false. -/
theorem order_by_value (a b : endpoint) (ha : a.IsFinite = true)
    (hb : b.IsFinite = true) (h : a.Value.Before b.Value = true) :
    a.Before b = true ∧ b.After a = true ∧ b.Before a = false
      ∧ a.After b = false := by
  simp only [endpoint.IsFinite, decide_eq_true_eq] at ha hb
  have hA : a.Value.After b.Value = false := by
    rcases Time.order_cases a.Value b.Value with k | k | k
    · exact k.2.1
    · rw [k.1] at h; exact Bool.noConfusion h
    · rw [k.1] at h; exact Bool.noConfusion h
  have hE : a.Value.Equal b.Value = false := by
    rcases Time.order_cases a.Value b.Value with k | k | k
    · exact k.2.2
    · rw [k.1] at h; exact Bool.noConfusion h
    · rw [k.1] at h; exact Bool.noConfusion h
  have hA2 : b.Value.After a.Value = true := by
    rw [Time.After_swap a.Value b.Value]; exact h
  have hB2 : b.Value.Before a.Value = false := by
    rw [← Time.After_swap b.Value a.Value]; exact hA
  have hE2 : b.Value.Equal a.Value = false := by
    rw [Time.Equal_swap a.Value b.Value]; exact hE
  unfold endpoint.Before endpoint.After
  rw [ha, hb, h, hA, hE, hA2, hB2, hE2]
  cases a.Included <;> cases b.Included <;>
    simp [finiteType_ne_minus, finiteType_ne_plus]

/-- C18, witness: the open endpoint at `t1` against the closed one at `t2`. -/
theorem order_by_value_witness :
    (newOpenEndpoint t1).Before (newCloseEndpoint t2) = true
      ∧ (newCloseEndpoint t2).After (newOpenEndpoint t1) = true
      ∧ (newCloseEndpoint t2).Before (newOpenEndpoint t1) = false
      ∧ (newOpenEndpoint t1).After (newCloseEndpoint t2) = false :=
  order_by_value (newOpenEndpoint t1) (newCloseEndpoint t2) (by decide)
    (by decide) (by decide)

end Intervals
